import Mathlib

/-
Verification of the BSD-tweaker tool (src/tweak.py): a shallow embedding of
its recommendation heuristic (suggest_tweaks), its apply loop with the
original-value table, its revert loop (revert_sysctl / main), and the
persistence path (save_sysctl), together with theorems settling the
specification claims.
-/

set_option autoImplicit false

namespace BSDTweaker

/-- Live OS-visible state: the sysctl store (a total map from tunable name to
its current string value, mirroring the string output of sysctl -n), the
contents of the persistent file /etc/sysctl.conf as a list of appended lines,
and the trace of sysctl -w writes issued so far (in order). -/
structure OS where
  live : String → String
  conf : List String
  writes : List (String × String)

/-- Embeds set_sysctl (tweak.py line 15): issues sysctl -w name=value, which
updates the live store and is recorded in the write trace. -/
def set_sysctl (os : OS) (name value : String) : OS :=
  { os with
    live := fun n => if n = name then value else os.live n
    writes := os.writes ++ [(name, value)] }

/-- Embeds get_sysctl (tweak.py line 21): reads the current live value via
sysctl -n name; a pure read of the store. -/
def get_sysctl (os : OS) (name : String) : String :=
  os.live name

/-- Embeds save_sysctl (tweak.py line 25): appends one line name=value
followed by a newline to /etc/sysctl.conf. The value is the integer
suggested value, rendered in decimal as Python string formatting does. -/
def save_sysctl (os : OS) (name : String) (value : Int) : OS :=
  { os with conf := os.conf ++ [name ++ "=" ++ toString value ++ "\n"] }

/-- The original-value table (the module-level Python dict original_values,
tweak.py line 8): an insertion-ordered association list from tunable name to
the captured string value. -/
abbrev Dict := List (String × String)

/-- Membership/indexing of the Python dict: first matching key wins, mirroring
name in original_values and original_values[name]. -/
def dictLookup : Dict → String → Option String
  | [], _ => none
  | (k, v) :: rest, n => if k = n then some v else dictLookup rest n

/-- Embeds revert_sysctl (tweak.py line 30): if name is recorded in the
original-value table, write the recorded value back with set_sysctl;
otherwise do nothing. -/
def revert_sysctl (orig : Dict) (os : OS) (name : String) : OS :=
  match dictLookup orig name with
  | some v => set_sysctl os name v
  | none => os

/-- Embeds the revert loop of main (tweak.py lines 158-159): iterate
revert_sysctl over the keys of the original-value table in insertion order. -/
def revert_all (orig : Dict) (os : OS) : OS :=
  (orig.map Prod.fst).foldl (revert_sysctl orig) os

/-- The readings passed to suggest_tweaks (tweak.py lines 87-91):
cpu_info = (model, cores, smt), memory_info = (physmem, usermem) in MB,
network_settings = (tcp_sendspace, tcp_recvspace). The SMT reading is the raw
string returned by sysctl; the numeric readings are Python ints. -/
structure AdvisorInput where
  model : String
  cores : Int
  smt : String
  physmem : Int
  usermem : Int
  tcp_sendspace : Int
  tcp_recvspace : Int

/-- The recommendation list built by suggest_tweaks (tweak.py lines 93-114),
in construction order: scheduler quantum, SMT, memory (one branch of two),
TCP send, TCP receive, and the unconditional somaxconn entry. -/
def suggest_tweaks_recs (i : AdvisorInput) : List (String × Int) :=
  (if i.cores > 2 then [("kern.sched.quantum", 10)] else []) ++
  (if i.smt = "1" then [("hw.smt", 0)] else []) ++
  (if i.physmem ≥ 4096 then [("kern.maxvnodes", 250000)]
   else [("kern.bufcachepercent", 15)]) ++
  (if i.tcp_sendspace < 65536 then [("net.inet.tcp.sendspace", 65536)] else []) ++
  (if i.tcp_recvspace < 65536 then [("net.inet.tcp.recvspace", 65536)] else []) ++
  [("kern.somaxconn", 1024)]

/-- One iteration of the display/apply loop of suggest_tweaks (tweak.py lines
118-128): re-read the current live value; when the try flag is set, capture it
into the original-value table only if the name is not already present, apply
the suggested value with set_sysctl, and when the keep flag is also set append
the pair to /etc/sysctl.conf with save_sysctl. -/
def apply_rec (try_flag keep_flag : Bool) (st : OS × Dict) (r : String × Int) :
    OS × Dict :=
  let current_value := get_sysctl st.1 r.1
  if try_flag then
    let orig := if (dictLookup st.2 r.1).isSome then st.2
                else st.2 ++ [(r.1, current_value)]
    let os₁ := set_sysctl st.1 r.1 (toString r.2)
    let os₂ := if keep_flag then save_sysctl os₁ r.1 r.2 else os₁
    (os₂, orig)
  else st

/-- The full display/apply loop of suggest_tweaks over a recommendation
list. -/
def apply_recs (try_flag keep_flag : Bool) (os : OS) (orig : Dict)
    (recs : List (String × Int)) : OS × Dict :=
  recs.foldl (apply_rec try_flag keep_flag) (os, orig)

/-- Embeds suggest_tweaks (tweak.py lines 87-128): build the recommendation
list from the readings, then run the display/apply loop over it. Returns the
resulting OS state and original-value table. -/
def suggest_tweaks (i : AdvisorInput) (try_flag keep_flag : Bool) (os : OS)
    (orig : Dict) : OS × Dict :=
  apply_recs try_flag keep_flag os orig (suggest_tweaks_recs i)

/-- The module-level original_values dict (tweak.py line 8), empty at the
start of every process invocation. -/
def original_values : Dict := []

/-- Embeds the branching of main (tweak.py lines 155-163): when the revert
flag is set, run the revert loop over the (still initial) original-value
table and do not generate recommendations; otherwise run suggest_tweaks with
the try/keep flags. Reads and prints before the branch do not change OS
state, and the benchmarks touch no tunable. -/
def main_run (revert_flag try_flag keep_flag : Bool) (i : AdvisorInput)
    (os : OS) : OS :=
  if revert_flag then revert_all original_values os
  else (suggest_tweaks i try_flag keep_flag os original_values).1

/-- A concrete OS state used to instantiate theorems with hypotheses. -/
def os₀ : OS := { live := fun _ => "0", conf := [], writes := [] }

theorem dictLookup_append_of_some (l l' : Dict) (n v : String)
    (h : dictLookup l n = some v) : dictLookup (l ++ l') n = some v := by
  induction l with
  | nil => simp [dictLookup] at h
  | cons p rest ih =>
      obtain ⟨k, w⟩ := p
      by_cases hk : k = n
      · simpa [dictLookup, hk] using h
      · simp only [dictLookup, if_neg hk] at h
        simpa [dictLookup, hk] using ih h

theorem lookup_apply_rec_some (t k : Bool) (st : OS × Dict) (r : String × Int)
    (n v : String) (h : dictLookup st.2 n = some v) :
    dictLookup (apply_rec t k st r).2 n = some v := by
  unfold apply_rec
  cases t with
  | false => simpa using h
  | true =>
      by_cases hs : (dictLookup st.2 r.1).isSome
      · simpa [hs] using h
      · simp only [hs, Bool.false_eq_true, if_false, if_true]
        exact dictLookup_append_of_some _ _ _ _ h

theorem key_mem_of_lookup_some (l : Dict) (n v : String)
    (h : dictLookup l n = some v) : n ∈ l.map Prod.fst := by
  induction l with
  | nil => simp [dictLookup] at h
  | cons p rest ih =>
      obtain ⟨k, w⟩ := p
      by_cases hk : k = n
      · simp [hk]
      · simp only [dictLookup, if_neg hk] at h
        simp [ih h]

theorem key_not_mem_of_lookup_none (l : Dict) (n : String)
    (h : dictLookup l n = none) : n ∉ l.map Prod.fst := by
  induction l with
  | nil => simp
  | cons p rest ih =>
      obtain ⟨k, w⟩ := p
      by_cases hk : k = n
      · simp [dictLookup, hk] at h
      · simp only [dictLookup, if_neg hk] at h
        have h1 : n ≠ k := fun he => hk he.symm
        simp [ih h, h1]

theorem lookup_isSome_of_mem (l : Dict) (n v : String)
    (h : (n, v) ∈ l) : dictLookup l n ≠ none := by
  induction l with
  | nil => simp at h
  | cons p rest ih =>
      obtain ⟨k, w⟩ := p
      by_cases hk : k = n
      · simp [dictLookup, hk]
      · rcases List.mem_cons.mp h with he | hm
        · exact absurd (congrArg Prod.fst he).symm hk
        · simpa [dictLookup, hk] using ih hm

theorem revert_foldl_live_of_not_mem (orig : Dict) (names : List String)
    (os : OS) (n : String) (h : n ∉ names) :
    (names.foldl (revert_sysctl orig) os).live n = os.live n := by
  induction names generalizing os with
  | nil => rfl
  | cons k rest ih =>
      have hk : n ≠ k := fun he => h (he ▸ List.mem_cons_self k rest)
      have hrest : n ∉ rest := fun hm => h (List.mem_cons_of_mem k hm)
      rw [List.foldl_cons, ih _ hrest]
      unfold revert_sysctl
      cases hl : dictLookup orig k
      · rfl
      · simp [set_sysctl, hk]

theorem revert_foldl_live_of_mem (orig : Dict) (names : List String)
    (os : OS) (n v : String) (hl : dictLookup orig n = some v)
    (hmem : n ∈ names) (hnd : names.Nodup) :
    (names.foldl (revert_sysctl orig) os).live n = v := by
  induction names generalizing os with
  | nil => cases hmem
  | cons k rest ih =>
      rcases List.nodup_cons.mp hnd with ⟨hknot, hnd'⟩
      by_cases he : n = k
      · subst he
        rw [List.foldl_cons, revert_foldl_live_of_not_mem orig rest _ n hknot]
        unfold revert_sysctl
        rw [hl]
        simp [set_sysctl]
      · have hmem' : n ∈ rest := by
          rcases List.mem_cons.mp hmem with h1 | h1
          · exact absurd h1 he
          · exact h1
        rw [List.foldl_cons]
        exact ih _ hmem' hnd'

theorem revert_foldl_writes (orig : Dict) (names : List String) (os : OS) :
    (names.foldl (revert_sysctl orig) os).writes =
      os.writes ++ names.filterMap
        (fun k => (dictLookup orig k).map (fun v => (k, v))) := by
  induction names generalizing os with
  | nil => simp
  | cons k rest ih =>
      rw [List.foldl_cons, ih]
      unfold revert_sysctl
      cases hl : dictLookup orig k with
      | none => simp [List.filterMap_cons, hl]
      | some v => simp [List.filterMap_cons, hl, set_sysctl]

theorem filterMap_lookup_self (orig : Dict)
    (hnd : (orig.map Prod.fst).Nodup) :
    (orig.map Prod.fst).filterMap
      (fun k => (dictLookup orig k).map (fun v => (k, v))) = orig := by
  induction orig with
  | nil => simp
  | cons p rest ih =>
      obtain ⟨k, v⟩ := p
      simp only [List.map_cons] at hnd
      rcases List.nodup_cons.mp hnd with ⟨hknot, hnd'⟩
      have hcongr : ∀ k' ∈ rest.map Prod.fst,
          (dictLookup ((k, v) :: rest) k').map (fun w => (k', w)) =
          (dictLookup rest k').map (fun w => (k', w)) := by
        intro k' hk'
        have hne : k ≠ k' := fun he => hknot (he ▸ hk')
        simp [dictLookup, hne]
      have h1 : dictLookup ((k, v) :: rest) k = some v := by simp [dictLookup]
      rw [List.map_cons]
      simp only [List.filterMap_cons, h1, Option.map_some]
      rw [List.filterMap_congr hcongr, ih hnd']
      rfl

/-- C1: For advisor inputs cores=4, SMT reading "1", physical memory 8192 MB,
user memory 6000 MB, TCP send space 16384 and TCP receive space 16384, the
recommendation sequence is exactly quantum=10, smt=0, maxvnodes=250000,
sendspace=65536, recvspace=65536, somaxconn=1024, in that order. -/
theorem suggest_tweaks_scenario_multicore :
    suggest_tweaks_recs
      { model := "test", cores := 4, smt := "1", physmem := 8192,
        usermem := 6000, tcp_sendspace := 16384, tcp_recvspace := 16384 } =
    [("kern.sched.quantum", 10), ("hw.smt", 0), ("kern.maxvnodes", 250000),
     ("net.inet.tcp.sendspace", 65536), ("net.inet.tcp.recvspace", 65536),
     ("kern.somaxconn", 1024)] := by
  rfl

/-- C9: In every invocation, the revert branch excludes the recommendation
path, so the original-value table is still the initial empty table when the
revert loop runs; consequently reverting changes nothing: no live-store
update, no write, no file append. -/
theorem revert_run_performs_no_write
    (try_flag keep_flag : Bool) (i : AdvisorInput) (os : OS) :
    main_run true try_flag keep_flag i os = os := by
  rfl

/-- C10: The Advisor output depends only on core count, the SMT reading,
physical memory and the two TCP buffer readings: two inputs differing only in
the CPU model string and/or the user-memory value yield identical
recommendation sequences. -/
theorem advisor_ignores_model_and_usermem
    (m₁ m₂ : String) (u₁ u₂ : Int) (cores : Int) (smt : String)
    (physmem sendspace recvspace : Int) :
    suggest_tweaks_recs
      { model := m₁, cores := cores, smt := smt, physmem := physmem,
        usermem := u₁, tcp_sendspace := sendspace,
        tcp_recvspace := recvspace } =
    suggest_tweaks_recs
      { model := m₂, cores := cores, smt := smt, physmem := physmem,
        usermem := u₂, tcp_sendspace := sendspace,
        tcp_recvspace := recvspace } := by
  rfl

/-- C6: The scheduler-quantum recommendation (kern.sched.quantum, 10) is
present in the Advisor output iff the core count exceeds 2. -/
theorem quantum_recommendation_iff_cores_gt_two (i : AdvisorInput) :
    ("kern.sched.quantum", (10 : Int)) ∈ suggest_tweaks_recs i ↔ 2 < i.cores := by
  unfold suggest_tweaks_recs
  split_ifs <;> simp_all

/-- C7: The SMT recommendation (hw.smt, 0) is present in the Advisor output
iff the SMT reading equals the enabled sentinel "1", and absent for every
other reading. -/
theorem smt_recommendation_iff_enabled (i : AdvisorInput) :
    ("hw.smt", (0 : Int)) ∈ suggest_tweaks_recs i ↔ i.smt = "1" := by
  unfold suggest_tweaks_recs
  split_ifs <;> simp_all

/-- C4: Exactly one of the two memory recommendations fires per run:
(kern.maxvnodes, 250000) iff physical memory is at least 4096 MB, and
(kern.bufcachepercent, 15) iff physical memory is below 4096 MB; never both
present and never both absent. -/
theorem memory_recommendations_mutually_exclusive (i : AdvisorInput) :
    (("kern.maxvnodes", (250000 : Int)) ∈ suggest_tweaks_recs i ↔
      4096 ≤ i.physmem)
    ∧ (("kern.bufcachepercent", (15 : Int)) ∈ suggest_tweaks_recs i ↔
      i.physmem < 4096)
    ∧ ¬(("kern.maxvnodes", (250000 : Int)) ∈ suggest_tweaks_recs i
        ∧ ("kern.bufcachepercent", (15 : Int)) ∈ suggest_tweaks_recs i)
    ∧ (("kern.maxvnodes", (250000 : Int)) ∈ suggest_tweaks_recs i
        ∨ ("kern.bufcachepercent", (15 : Int)) ∈ suggest_tweaks_recs i) := by
  unfold suggest_tweaks_recs
  split_ifs <;> simp_all

/-- C5: The send-space recommendation (net.inet.tcp.sendspace, 65536) is
present iff the TCP send reading is strictly below 65536, the receive-space
recommendation likewise for the receive reading, and the conditions are
independent: there is an input on which both fire in the same run. -/
theorem tcp_recommendations_independent (i : AdvisorInput) :
    (("net.inet.tcp.sendspace", (65536 : Int)) ∈ suggest_tweaks_recs i ↔
      i.tcp_sendspace < 65536)
    ∧ (("net.inet.tcp.recvspace", (65536 : Int)) ∈ suggest_tweaks_recs i ↔
      i.tcp_recvspace < 65536)
    ∧ ∃ j : AdvisorInput,
        ("net.inet.tcp.sendspace", (65536 : Int)) ∈ suggest_tweaks_recs j
        ∧ ("net.inet.tcp.recvspace", (65536 : Int)) ∈ suggest_tweaks_recs j := by
  refine ⟨?_, ?_, ?_⟩
  · unfold suggest_tweaks_recs
    split_ifs <;> simp_all
  · unfold suggest_tweaks_recs
    split_ifs <;> simp_all
  · exact ⟨{ model := "m", cores := 1, smt := "0", physmem := 4096,
             usermem := 0, tcp_sendspace := 0, tcp_recvspace := 0 },
           by decide, by decide⟩

/-- C2: Once a name is entered into the original-value table, no later
iteration of the apply loop within the same run overwrites its stored value:
the table keeps the value from the first capture, whatever recommendations
are applied afterwards and whatever the flags are. -/
theorem original_values_first_write_wins (t k : Bool)
    (recs : List (String × Int)) (os : OS) (orig : Dict) (n v : String)
    (h : dictLookup orig n = some v) :
    dictLookup (apply_recs t k os orig recs).2 n = some v := by
  induction recs generalizing os orig with
  | nil => simpa [apply_recs] using h
  | cons r rest ih =>
      have h1 := lookup_apply_rec_some t k (os, orig) r n v h
      have h2 := ih (apply_rec t k (os, orig) r).1 (apply_rec t k (os, orig) r).2 h1
      simp only [apply_recs, List.foldl_cons]
      simpa [apply_recs] using h2

/-- Witness for C2 at a concrete run: the table already holds
kern.somaxconn = "128"; after an apply pass whose recommendation list writes
kern.somaxconn again, the stored value is still "128". -/
theorem original_values_first_write_wins_witness :
    dictLookup [("kern.somaxconn", "128")] "kern.somaxconn" = some "128"
    ∧ dictLookup (apply_recs true false os₀ [("kern.somaxconn", "128")]
        [("kern.somaxconn", 1024), ("hw.smt", 0)]).2 "kern.somaxconn" =
      some "128" :=
  ⟨by decide, original_values_first_write_wins true false
      [("kern.somaxconn", 1024), ("hw.smt", 0)] os₀
      [("kern.somaxconn", "128")] "kern.somaxconn" "128" (by decide)⟩

/-- C3: With distinct keys (as the Python dict guarantees), revert writes
back exactly the captured value for every name present in the original-value
table, leaves the live value of every absent name unchanged, and its write
trace extends the previous one by exactly the table entries: no write
targets a name that was never captured. -/
theorem revert_restores_exactly_captured (orig : Dict) (os : OS)
    (hnd : (orig.map Prod.fst).Nodup) :
    (∀ n v, dictLookup orig n = some v → (revert_all orig os).live n = v)
    ∧ (∀ n, dictLookup orig n = none →
        (revert_all orig os).live n = os.live n)
    ∧ (revert_all orig os).writes = os.writes ++ orig := by
  refine ⟨?_, ?_, ?_⟩
  · intro n v h
    exact revert_foldl_live_of_mem orig _ os n v h
      (key_mem_of_lookup_some orig n v h) hnd
  · intro n h
    exact revert_foldl_live_of_not_mem orig _ os n
      (key_not_mem_of_lookup_none orig n h)
  · unfold revert_all
    rw [revert_foldl_writes, filterMap_lookup_self orig hnd]

/-- Witness for C3: a concrete table with two entries over a concrete state;
the revert run restores the captured value of hw.smt. -/
theorem revert_restores_exactly_captured_witness :
    (([("hw.smt", "1"), ("kern.somaxconn", "128")] : Dict).map
        Prod.fst).Nodup
    ∧ (revert_all [("hw.smt", "1"), ("kern.somaxconn", "128")] os₀).live
        "hw.smt" = "1" :=
  ⟨by decide,
   (revert_restores_exactly_captured
      [("hw.smt", "1"), ("kern.somaxconn", "128")] os₀ (by decide)).1
     "hw.smt" "1" (by decide)⟩

theorem apply_recs_writes (k : Bool) (recs : List (String × Int)) (os : OS)
    (orig : Dict) :
    (apply_recs true k os orig recs).1.writes =
      os.writes ++ recs.map (fun r => (r.1, toString r.2)) := by
  induction recs generalizing os orig with
  | nil => simp [apply_recs]
  | cons r rest ih =>
      have hstep : (apply_rec true k (os, orig) r).1.writes =
          os.writes ++ [(r.1, toString r.2)] := by
        unfold apply_rec
        cases k <;> simp [set_sysctl, save_sysctl, get_sysctl]
      have h3 : (List.foldl (apply_rec true k)
            (apply_rec true k (os, orig) r) rest).1.writes =
          (apply_rec true k (os, orig) r).1.writes ++
            rest.map (fun r => (r.1, toString r.2)) :=
        ih (apply_rec true k (os, orig) r).1 (apply_rec true k (os, orig) r).2
      simp only [apply_recs, List.foldl_cons, List.map_cons]
      rw [h3, hstep]
      simp

theorem apply_recs_conf (k : Bool) (recs : List (String × Int)) (os : OS)
    (orig : Dict) :
    (apply_recs true k os orig recs).1.conf =
      os.conf ++ (if k then
        recs.map (fun r => r.1 ++ "=" ++ toString r.2 ++ "\n") else []) := by
  induction recs generalizing os orig with
  | nil => cases k <;> simp [apply_recs]
  | cons r rest ih =>
      have hstep : (apply_rec true k (os, orig) r).1.conf =
          os.conf ++ (if k then [r.1 ++ "=" ++ toString r.2 ++ "\n"]
            else []) := by
        unfold apply_rec
        cases k <;> simp [set_sysctl, save_sysctl, get_sysctl]
      have h3 : (List.foldl (apply_rec true k)
            (apply_rec true k (os, orig) r) rest).1.conf =
          (apply_rec true k (os, orig) r).1.conf ++ (if k then
            rest.map (fun r => r.1 ++ "=" ++ toString r.2 ++ "\n")
            else []) :=
        ih (apply_rec true k (os, orig) r).1 (apply_rec true k (os, orig) r).2
      simp only [apply_recs, List.foldl_cons, List.map_cons]
      rw [h3, hstep]
      cases k <;> simp

/-- C8: In an apply pass with the persist flag unset, the persistent file is
left unchanged while the live store receives one write per recommendation in
display order; with both flags set, the file additionally gains exactly one
name=value line per recommendation, appended in display order. -/
theorem apply_persist_conf_effect (recs : List (String × Int)) (os : OS)
    (orig : Dict) :
    ((apply_recs true false os orig recs).1.conf = os.conf
     ∧ (apply_recs true false os orig recs).1.writes =
        os.writes ++ recs.map (fun r => (r.1, toString r.2)))
    ∧ ((apply_recs true true os orig recs).1.conf =
        os.conf ++ recs.map (fun r => r.1 ++ "=" ++ toString r.2 ++ "\n")
       ∧ (apply_recs true true os orig recs).1.writes =
        os.writes ++ recs.map (fun r => (r.1, toString r.2))) := by
  refine ⟨⟨?_, ?_⟩, ?_, ?_⟩
  · simpa using apply_recs_conf false recs os orig
  · exact apply_recs_writes false recs os orig
  · simpa using apply_recs_conf true recs os orig
  · exact apply_recs_writes true recs os orig

end BSDTweaker
